import Mathlib

/-!
Verification development for the wine-quality training notebooks.

The source is a pair of Jupyter notebooks that preprocess the UCI wine-quality
table (sklearn `train_test_split` and `StandardScaler`), define a four-layer
feed-forward regressor `WineQualityNet` in PyTorch, run a manual
train/validate loop with MSE loss, evaluate with MSE/RMSE/R2, and persist a
checkpoint with `torch.save` / `torch.load`.

The embedding below models the numeric data as exact rationals.  The only
place the code uses an irrational operation is the standard deviation
`scale_ = sqrt(var_)` inside `StandardScaler.fit`; the fitted scale is
therefore characterised by the predicate `fitsOn` (`scale ^ 2 = variance`,
with the sklearn helper `_handle_zeros_in_scale` mapping a zero scale to 1) instead of
being computed, and every theorem that needs it takes a scale satisfying that
predicate.
-/

namespace WineQuality

/-! ## Column statistics (NumPy `mean` / biased `var`, as used by sklearn) -/

/-- Mean of a list of rationals (`np.mean`); the empty list gives `0/0 = 0`. -/
def colMean (xs : List ℚ) : ℚ := xs.sum / xs.length

/-- Biased variance of a list of rationals (`np.var`, `ddof = 0`), which is
what `StandardScaler.fit` computes per feature column. -/
def colVar (xs : List ℚ) : ℚ :=
  (xs.map (fun x => (x - colMean xs) ^ 2)).sum / xs.length

/-- Feature column `j` of a row-major table. -/
def column (X : List (List ℚ)) (j : ℕ) : List ℚ :=
  X.map (fun r => r.getD j 0)

/-! ## StandardScaler (sklearn.preprocessing) -/

/-- Fitted state of `sklearn.preprocessing.StandardScaler`: per-feature mean
`mean_` and per-feature scale `scale_` (the standard deviation, with zeros
replaced by 1). -/
structure StandardScaler where
  mean_ : List ℚ
  scale_ : List ℚ

/-- Fit statistics of `StandardScaler.fit`: the per-feature means of a table with `d` feature
columns. -/
def fitMean (X : List (List ℚ)) (d : ℕ) : List ℚ :=
  (List.range d).map (fun j => colMean (column X j))

/-- Fit statistics of `StandardScaler.fit`: the per-feature biased variances `var_`. -/
def fitVar (X : List (List ℚ)) (d : ℕ) : List ℚ :=
  (List.range d).map (fun j => colVar (column X j))

/-- Predicate stating that `sc` is a scaler fitted on `X` (with `d` feature columns): its `mean_` is
the per-column means and its `scale_` is `sqrt(var_)` with zeros mapped to 1
by `_handle_zeros_in_scale`.  Because a square root is irrational in general,
`scale_` is characterised by `scale ^ 2 = var` together with nonnegativity. -/
def fitsOn (sc : StandardScaler) (X : List (List ℚ)) (d : ℕ) : Prop :=
  sc.mean_ = fitMean X d ∧ sc.scale_.length = d ∧
  ∀ j, j < d →
    (colVar (column X j) = 0 → sc.scale_.getD j 0 = 1) ∧
    (colVar (column X j) ≠ 0 →
      sc.scale_.getD j 0 ^ 2 = colVar (column X j) ∧ 0 < sc.scale_.getD j 0)

instance (sc : StandardScaler) (X : List (List ℚ)) (d : ℕ) :
    Decidable (fitsOn sc X d) := by
  unfold fitsOn; infer_instance

/-- Transformation `StandardScaler.transform` on one row: the vectorised
`(X - mean_) / scale_`. -/
def transformRow (sc : StandardScaler) (row : List ℚ) : List ℚ :=
  List.zipWith (· / ·) (List.zipWith (fun x m => x - m) row sc.mean_) sc.scale_

/-- Transformation `StandardScaler.transform` on a whole table. -/
def transform (sc : StandardScaler) (X : List (List ℚ)) : List (List ℚ) :=
  X.map (transformRow sc)

/-- The statistics the preprocessing step fits.  In `main.py` the scaler is
fitted by `scaler.fit_transform(X_train_final)`, so the statistics are
computed from the training partition; the validation and test partitions are
only ever passed to `scaler.transform`. -/
def fittedStats (train val test : List (List ℚ)) (d : ℕ) : List ℚ × List ℚ :=
  (fitMean train d, fitVar train d)

/-- The three scaled partitions `X_train_scaled, X_val_scaled, X_test_scaled`
produced by the preprocessing step, all via the same fitted scaler. -/
def scaledPartitions (sc : StandardScaler) (train val test : List (List ℚ)) :
    List (List ℚ) × List (List ℚ) × List (List ℚ) :=
  (transform sc train, transform sc val, transform sc test)

/-! ## train_test_split (sklearn.model_selection)

`train_test_split(X, y, test_size=r, random_state=42)` draws a permutation of
`range(n)`, takes the first `ceil(r * n)` positions as the test indices and
the remaining positions as the train indices.  The seeded permutation is a
parameter here (any permutation of `range n`). -/

/-- Number of held-out samples: `n_test = ceil(test_size * n_samples)`. -/
def nTestOf (n : ℕ) (testSize : ℚ) : ℕ := Nat.ceil (testSize * n)

/-- The index-level content of the two chained `train_test_split` calls in
`main.py`: the first call splits `range n` (via permutation `perm1`) into
test and remaining indices; the second call permutes the remaining positions
(via `perm2`) and splits them into validation and final training indices.
Returns `(trainIdx, valIdx, testIdx)`. -/
def twoStageSplit (n : ℕ) (r1 r2 : ℚ) (perm1 perm2 : List ℕ) :
    List ℕ × List ℕ × List ℕ :=
  let k1 := nTestOf n r1
  let testIdx := perm1.take k1
  let rest := perm1.drop k1
  let k2 := nTestOf rest.length r2
  let valIdx := (perm2.take k2).map (fun i => rest.getD i 0)
  let trainIdx := (perm2.drop k2).map (fun i => rest.getD i 0)
  (trainIdx, valIdx, testIdx)

/-! ## WineQualityNet -/

/-- Parameters of `WineQualityNet`: weight matrix and bias vector of the four
linear layers `fc1 : input_dim → 64`, `fc2 : 64 → 32`, `fc3 : 32 → 16`,
`fc4 : 16 → 1`.  A weight matrix is a list of output rows, as in
`torch.nn.Linear` (`y = W x + b`). -/
structure Net where
  fc1w : List (List ℚ)
  fc1b : List ℚ
  fc2w : List (List ℚ)
  fc2b : List ℚ
  fc3w : List (List ℚ)
  fc3b : List ℚ
  fc4w : List (List ℚ)
  fc4b : List ℚ

/-- Dot product of a weight row with the input vector. -/
def dot (w x : List ℚ) : ℚ := (List.zipWith (· * ·) w x).sum

/-- Linear layer `torch.nn.Linear`: each output unit is `dot(row, x) + bias`. -/
def linear (w : List (List ℚ)) (b : List ℚ) (x : List ℚ) : List ℚ :=
  List.zipWith (fun row bi => dot row x + bi) w b

/-- Activation `torch.nn.ReLU` applied elementwise. -/
def relu (x : List ℚ) : List ℚ := x.map (fun v => max v 0)

/-- The dropout probability of the model, `nn.Dropout(0.2)`. -/
def dropoutP : ℚ := 2 / 10

/-- Regularisation `torch.nn.Dropout(p)`: in training mode the sampled Bernoulli mask zeroes
the dropped units and rescales the kept units by `1 / (1 - p)` (inverted
dropout); in evaluation mode the module is the identity. -/
def dropout (p : ℚ) (training : Bool) (mask : List Bool) (x : List ℚ) :
    List ℚ :=
  if training then
    List.zipWith (fun keep v => if keep then v / (1 - p) else 0) mask x
  else x

/-- Forward pass `WineQualityNet.forward` on one input vector, following the source line by
line: `relu (fc1 x)`, dropout, `relu (fc2 _)`, dropout, `relu (fc3 _)`, and a
final `fc4` with no activation.  `m1` and `m2` are the dropout masks sampled
for the two dropout applications (unused in evaluation mode). -/
def forward (net : Net) (training : Bool) (m1 m2 : List Bool) (x : List ℚ) :
    List ℚ :=
  let x1 := relu (linear net.fc1w net.fc1b x)
  let x2 := dropout dropoutP training m1 x1
  let x3 := relu (linear net.fc2w net.fc2b x2)
  let x4 := dropout dropoutP training m2 x3
  let x5 := relu (linear net.fc3w net.fc3b x4)
  linear net.fc4w net.fc4b x5

/-- Evaluation-mode forward pass over a batch of input rows, as in
`model.eval()` followed by `model(X_test_tensor)`. -/
def forwardBatch (net : Net) (X : List (List ℚ)) : List (List ℚ) :=
  X.map (fun x => forward net false [] [] x)

/-- Shape well-formedness of the parameters, fixed by the constructor
`WineQualityNet(input_dim = d)`. -/
def wf (net : Net) (d : ℕ) : Prop :=
  net.fc1w.length = 64 ∧ (∀ r ∈ net.fc1w, r.length = d) ∧
    net.fc1b.length = 64 ∧
  net.fc2w.length = 32 ∧ (∀ r ∈ net.fc2w, r.length = 64) ∧
    net.fc2b.length = 32 ∧
  net.fc3w.length = 16 ∧ (∀ r ∈ net.fc3w, r.length = 32) ∧
    net.fc3b.length = 16 ∧
  net.fc4w.length = 1 ∧ (∀ r ∈ net.fc4w, r.length = 16) ∧
    net.fc4b.length = 1

instance (net : Net) (d : ℕ) : Decidable (wf net d) := by
  unfold wf; infer_instance

/-- A `WineQualityNet(input_dim = d)` with every weight and bias zero; used
as a concrete well-formed instance of the architecture. -/
def zeroNet (d : ℕ) : Net where
  fc1w := List.replicate 64 (List.replicate d 0)
  fc1b := List.replicate 64 0
  fc2w := List.replicate 32 (List.replicate 64 0)
  fc2b := List.replicate 32 0
  fc3w := List.replicate 16 (List.replicate 32 0)
  fc3b := List.replicate 16 0
  fc4w := List.replicate 1 (List.replicate 16 0)
  fc4b := List.replicate 1 0

/-! ## Loss, training loop and validation -/

/-- A dataloader batch: a list of `(features, target)` samples. -/
abbrev Batch := List (List ℚ × ℚ)

/-- Loss `torch.nn.MSELoss()`: mean of the squared componentwise differences. -/
def mseLoss (preds targets : List ℚ) : ℚ :=
  (List.zipWith (fun p t => (p - t) ^ 2) preds targets).sum / preds.length

/-- One evaluation-mode prediction: `model(x).squeeze()` extracts the single
component of the length-one output. -/
def predictOne (net : Net) (x : List ℚ) : ℚ :=
  (forward net false [] [] x).getD 0 0

/-- The loss of one batch in evaluation mode:
`criterion(model(batch_X).squeeze(), batch_y)`. -/
def batchLoss (net : Net) (b : Batch) : ℚ :=
  mseLoss (b.map (fun s => predictOne net s.1)) (b.map (fun s => s.2))

/-- The `validate` function of the source: `model.eval()`, then under
`torch.no_grad()` accumulate `loss.item()` over the batches and return
`total_loss / len(dataloader)`.  The model is threaded through the loop
unchanged (nothing in the body writes to it). -/
def validate (net : Net) (loader : List Batch) : ℚ × Net :=
  let r := loader.foldl
    (fun (acc : ℚ × Net) b => (acc.1 + batchLoss acc.2 b, acc.2)) (0, net)
  (r.1 / loader.length, r.2)

/-- The per-batch training losses of `train_epoch`, at the parameters current
when each batch is processed.  `lossOf` is the train-mode batch loss (its
dropout masks are sampled by torch) and `step` is the parameter update
performed by `loss.backward()` plus `optimizer.step()` (Adam); both are kept
abstract since no claim depends on their numeric content. -/
def trainLosses (step : Net → Batch → Net) (lossOf : Net → Batch → ℚ) :
    Net → List Batch → List ℚ
  | _, [] => []
  | net, b :: bs => lossOf net b :: trainLosses step lossOf (step net b) bs

/-- The `train_epoch` function of the source: per batch, compute the loss at
the current parameters, update the parameters, accumulate `loss.item()`, and
finally return `total_loss / len(dataloader)` together with the updated
model. -/
def trainEpoch (step : Net → Batch → Net) (lossOf : Net → Batch → ℚ)
    (net : Net) (loader : List Batch) : ℚ × Net :=
  let r := loader.foldl
    (fun (acc : ℚ × Net) b => (acc.1 + lossOf acc.2 b, step acc.2 b)) (0, net)
  (r.1 / loader.length, r.2)

/-- One epoch of the training loop in `main`: the train phase over the train
loader followed by the validate phase over the validation loader; returns the
two recorded losses and the model after the epoch. -/
def epochStep (step : Net → Batch → Net) (lossOf : Net → Batch → ℚ)
    (net : Net) (trainLoader valLoader : List Batch) : (ℚ × ℚ) × Net :=
  let tr := trainEpoch step lossOf net trainLoader
  let va := validate tr.2 valLoader
  ((tr.1, va.1), va.2)

/-- The evaluation-mode MSE over all samples of a loader taken together
(every sample weighted equally), for comparison with the per-batch average
computed by the loops. -/
def datasetLoss (net : Net) (loader : List Batch) : ℚ :=
  batchLoss net loader.flatten

/-- Sum of the squared residuals of a batch in evaluation mode (the
numerator of the batch MSE). -/
def sqErrSum (net : Net) (b : Batch) : ℚ :=
  (b.map (fun s => (predictOne net s.1 - s.2) ^ 2)).sum

/-- A loader whose two batches have different sizes but whose per-batch MSEs
coincide (all residuals of the zero net are 1). -/
def cexLoaderEq : List Batch := [[([0], 1)], [([0], 1), ([0], 1)]]

/-- A loader whose last batch is smaller than the first and whose per-batch
average differs from the per-sample MSE. -/
def cexLoaderNe : List Batch := [[([0], 1)], [([0], 0), ([0], 0)]]

/-! ## Metrics: sklearn.metrics.r2_score -/

/-- Metric `sklearn.metrics.r2_score` (the version pinned by the job environment,
scikit-learn 1.0.2): with fewer than two samples it warns and returns `nan`
(modelled as `none`); otherwise, with `num = sum((y_true - y_pred)^2)` and
`den = sum((y_true - mean(y_true))^2)`, it returns `1 - num / den` when both
are nonzero, `0.0` when the denominator is zero but the numerator is not
(its source comments this as an arbitrary choice to avoid `-inf`), and `1.0`
when the numerator is zero. -/
def r2_score (yTrue yPred : List ℚ) : Option ℚ :=
  if yTrue.length < 2 then none
  else
    if (yTrue.map (fun t => (t - colMean yTrue) ^ 2)).sum ≠ 0 ∧
        (List.zipWith (fun t p => (t - p) ^ 2) yTrue yPred).sum ≠ 0 then
      some (1 - (List.zipWith (fun t p => (t - p) ^ 2) yTrue yPred).sum /
        (yTrue.map (fun t => (t - colMean yTrue) ^ 2)).sum)
    else if (List.zipWith (fun t p => (t - p) ^ 2) yTrue yPred).sum ≠ 0 then
      some 0
    else some 1

/-! ## Persistence: the save and load cells -/

/-- The checkpoint dictionary passed to `torch.save`: model state dict,
optimizer state dict, fitted scaler, `input_dim`, and both loss histories.
The optimizer state is opaque to every claim and kept as raw numbers. -/
structure Checkpoint where
  model_state_dict : Net
  optimizer_state_dict : List ℚ
  scaler : StandardScaler
  input_dim : ℕ
  train_losses : List ℚ
  val_losses : List ℚ

/-- The save cell: `torch.save({...}, model_path)` serialises exactly these
fields. -/
def saveCheckpoint (net : Net) (opt : List ℚ) (sc : StandardScaler) (d : ℕ)
    (tl vl : List ℚ) : Checkpoint :=
  ⟨net, opt, sc, d, tl, vl⟩

/-- The keyword arguments `torch.load` accepts: its named parameters plus the
keywords its `pickle_load_args` are forwarded to (`pickle.Unpickler`).  Any
other keyword raises a `TypeError` inside the unpickler. -/
def torchLoadKnownKwargs : List String :=
  ["map_location", "pickle_module", "weights_only", "mmap",
   "fix_imports", "encoding", "errors", "buffers"]

/-- Loading `torch.load` applied to a stored checkpoint: succeeds and returns the
checkpoint when every supplied keyword argument is recognised, otherwise the
unrecognised keyword reaches `pickle.Unpickler` and raises a `TypeError`. -/
def torchLoad (kwargs : List String) (c : Checkpoint) :
    Except String Checkpoint :=
  if kwargs.all (fun k => torchLoadKnownKwargs.contains k) then Except.ok c
  else Except.error "TypeError: invalid keyword argument"

/-- The keyword arguments the load cell actually passes:
`torch.load(model_path, weighta_only=False)` — note the
misspelling of `weights_only`. -/
def loadCellKwargs : List String := ["weighta_only"]

/-- The load cell of the source: call `torch.load` with its (misspelled)
keyword, reconstruct a fresh model from the persisted input dimension,
load the saved state dict into it (which replaces the fresh random
parameters with the saved ones), and set evaluation mode. -/
def loadModelCell (c : Checkpoint) : Except String Net :=
  match torchLoad loadCellKwargs c with
  | Except.ok ck => Except.ok ck.model_state_dict
  | Except.error e => Except.error e

/-! ## General list lemmas -/

theorem getD_zipWith {α β γ : Type} (f : α → β → γ) :
    ∀ (as : List α) (bs : List β) (j : ℕ) (da : α) (db : β) (dc : γ),
      j < as.length → j < bs.length →
      (List.zipWith f as bs).getD j dc = f (as.getD j da) (bs.getD j db)
  | _ :: _, _ :: _, 0, _, _, _, _, _ => rfl
  | a :: as, b :: bs, j + 1, da, db, dc, h1, h2 =>
    getD_zipWith f as bs j da db dc (Nat.lt_of_succ_lt_succ h1)
      (Nat.lt_of_succ_lt_succ h2)
  | [], _, j, _, _, _, h1, _ => absurd h1 (by simp)
  | _ :: _, [], j, _, _, _, _, h2 => absurd h2 (by simp)

theorem sum_map_sub_const (c : ℚ) :
    ∀ xs : List ℚ, (xs.map (fun x => x - c)).sum = xs.sum - xs.length * c
  | [] => by simp
  | x :: xs => by
    have ih := sum_map_sub_const c xs
    simp only [List.map_cons, List.sum_cons, List.length_cons, ih]
    push_cast
    ring

theorem sum_map_div {α : Type} (f : α → ℚ) (c : ℚ) :
    ∀ xs : List α, (xs.map (fun x => f x / c)).sum = (xs.map f).sum / c
  | [] => by simp
  | x :: xs => by
    have ih := sum_map_div f c xs
    simp only [List.map_cons, List.sum_cons, ih]
    rw [add_div]

theorem getD_map_range (f : ℕ → ℚ) (d j : ℕ) (hj : j < d) :
    ((List.range d).map f).getD j 0 = f j := by
  rw [List.getD_eq_getElem _ _ (by simpa using hj)]
  simp

/-! ## Standardisation: algebra of `(x - mean) / scale` -/

theorem sum_standardize (xs : List ℚ) (μ s : ℚ) :
    (xs.map (fun x => (x - μ) / s)).sum = (xs.sum - xs.length * μ) / s := by
  rw [sum_map_div (fun x => x - μ) s xs, sum_map_sub_const]

theorem sum_standardize_zero (xs : List ℚ) (s : ℚ) :
    (xs.map (fun x => (x - colMean xs) / s)).sum = 0 := by
  rw [sum_standardize]
  rcases eq_or_ne (xs.length : ℚ) 0 with h | h
  · have h0 : xs = [] := List.length_eq_zero.mp (by exact_mod_cast h)
    simp [h0]
  · have hms : (xs.length : ℚ) * colMean xs = xs.sum := by
      unfold colMean
      field_simp
    rw [hms]
    simp

theorem standardized_mean (xs : List ℚ) (s : ℚ) :
    colMean (xs.map (fun x => (x - colMean xs) / s)) = 0 := by
  show (xs.map (fun x => (x - colMean xs) / s)).sum /
    ((xs.map (fun x => (x - colMean xs) / s)).length : ℚ) = 0
  rw [sum_standardize_zero, zero_div]

theorem var_eq_zero_of_length_lt_two (xs : List ℚ) (h : xs.length < 2) :
    colVar xs = 0 := by
  match xs, h with
  | [], _ => simp [colVar]
  | [a], _ => simp [colVar, colMean]

theorem length_ne_zero_of_var_ne_zero (xs : List ℚ) (h : colVar xs ≠ 0) :
    (xs.length : ℚ) ≠ 0 := by
  intro h0
  have : xs = [] := List.length_eq_zero.mp (by exact_mod_cast h0)
  exact h (by simp [this, colVar])

theorem standardized_var (xs : List ℚ) (s : ℚ) (hv : s ^ 2 = colVar xs)
    (hs : s ≠ 0) :
    colVar (xs.map (fun x => (x - colMean xs) / s)) = 1 := by
  have hvar : colVar xs ≠ 0 := by
    rw [← hv]; exact pow_ne_zero 2 hs
  have hn : (xs.length : ℚ) ≠ 0 := length_ne_zero_of_var_ne_zero xs hvar
  have hsq : ((xs.map (fun x => (x - colMean xs) / s)).map
      (fun y => y ^ 2)).sum =
      (xs.map (fun x => (x - colMean xs) ^ 2)).sum / s ^ 2 := by
    rw [List.map_map]
    have hcomp : ((fun y => y ^ 2) ∘ fun x => (x - colMean xs) / s) =
        fun x => ((x - colMean xs) ^ 2) / s ^ 2 := by
      funext a
      simp [Function.comp, div_pow]
    rw [hcomp, sum_map_div (fun x => (x - colMean xs) ^ 2) (s ^ 2) xs]
  have hsum : (xs.map (fun x => (x - colMean xs) ^ 2)).sum =
      colVar xs * xs.length := by
    unfold colVar
    rw [div_mul_cancel₀ _ hn]
  show ((xs.map (fun x => (x - colMean xs) / s)).map
      (fun y => (y - colMean (xs.map (fun x => (x - colMean xs) / s))) ^ 2)).sum /
      (((xs.map (fun x => (x - colMean xs) / s)).length : ℕ) : ℚ) = 1
  simp only [standardized_mean xs s, sub_zero]
  rw [hsq, hsum, ← hv, List.length_map]
  rw [mul_comm, mul_div_assoc, div_self (pow_ne_zero 2 hs), mul_one,
    div_self hn]

theorem column_transform (sc : StandardScaler) (X : List (List ℚ)) (d j : ℕ)
    (hj : j < d) (hrows : ∀ r ∈ X, r.length = d)
    (hm : sc.mean_.length = d) (hs : sc.scale_.length = d) :
    column (transform sc X) j =
      (column X j).map
        (fun x => (x - sc.mean_.getD j 0) / sc.scale_.getD j 0) := by
  unfold column transform
  rw [List.map_map, List.map_map]
  apply List.map_congr_left
  intro r hr
  have hrl : r.length = d := hrows r hr
  show (transformRow sc r).getD j 0 =
    (r.getD j 0 - sc.mean_.getD j 0) / sc.scale_.getD j 0
  unfold transformRow
  rw [getD_zipWith (· / ·) _ _ j 0 0 0
      (by simp [List.length_zipWith, hrl, hm]; omega) (by omega),
    getD_zipWith (fun x m => x - m) _ _ j 0 0 0 (by omega) (by omega)]

/-! ## Loop lemmas -/

theorem validate_foldl (net : Net) :
    ∀ (loader : List Batch) (acc : ℚ),
      loader.foldl (fun (a : ℚ × Net) b => (a.1 + batchLoss a.2 b, a.2))
        (acc, net) = (acc + (loader.map (batchLoss net)).sum, net)
  | [], acc => by simp
  | b :: bs, acc => by
    have ih := validate_foldl net bs (acc + batchLoss net b)
    simp only [List.foldl_cons, List.map_cons, List.sum_cons]
    rw [ih, add_assoc]

theorem validate_eq (net : Net) (loader : List Batch) :
    validate net loader =
      ((loader.map (batchLoss net)).sum / loader.length, net) := by
  unfold validate
  rw [validate_foldl net loader 0, zero_add]

theorem trainEpoch_foldl (step : Net → Batch → Net)
    (lossOf : Net → Batch → ℚ) :
    ∀ (loader : List Batch) (acc : ℚ) (net : Net),
      (loader.foldl (fun (a : ℚ × Net) b => (a.1 + lossOf a.2 b, step a.2 b))
        (acc, net)).1 = acc + (trainLosses step lossOf net loader).sum
  | [], acc, net => by simp [trainLosses]
  | b :: bs, acc, net => by
    have ih := trainEpoch_foldl step lossOf bs (acc + lossOf net b) (step net b)
    simp only [List.foldl_cons, trainLosses, List.sum_cons]
    rw [ih, add_assoc]

theorem trainEpoch_loss (step : Net → Batch → Net)
    (lossOf : Net → Batch → ℚ) (net : Net) (loader : List Batch) :
    (trainEpoch step lossOf net loader).1 =
      (trainLosses step lossOf net loader).sum / loader.length := by
  show (loader.foldl (fun (a : ℚ × Net) b => (a.1 + lossOf a.2 b, step a.2 b))
      (0, net)).1 / (loader.length : ℚ) =
    (trainLosses step lossOf net loader).sum / loader.length
  rw [trainEpoch_foldl step lossOf loader 0 net, zero_add]

/-! ## The zero network evaluates to zero -/

theorem dot_replicate_zero : ∀ (n : ℕ) (x : List ℚ),
    dot (List.replicate n 0) x = 0
  | 0, _ => rfl
  | _ + 1, [] => rfl
  | n + 1, y :: ys => by
    have ih := dot_replicate_zero n ys
    unfold dot at ih ⊢
    simp only [List.replicate_succ, List.zipWith_cons_cons, List.sum_cons, ih]
    simp

theorem linear_zero (m n : ℕ) (x : List ℚ) :
    linear (List.replicate m (List.replicate n 0)) (List.replicate m 0) x =
      List.replicate m 0 := by
  induction m with
  | zero => rfl
  | succ m ih =>
    unfold linear at ih ⊢
    simp only [List.replicate_succ, List.zipWith_cons_cons, ih,
      dot_replicate_zero, add_zero]

theorem relu_replicate_zero (m : ℕ) :
    relu (List.replicate m 0) = List.replicate m 0 := by
  unfold relu
  rw [List.map_replicate]
  simp

theorem forward_zeroNet (d : ℕ) (x : List ℚ) :
    forward (zeroNet d) false [] [] x = [0] := by
  unfold forward zeroNet dropout
  simp only [Bool.false_eq_true, if_false, linear_zero, relu_replicate_zero]
  rfl

theorem predictOne_zeroNet (d : ℕ) (x : List ℚ) :
    predictOne (zeroNet d) x = 0 := by
  unfold predictOne
  rw [forward_zeroNet]
  rfl

/-! ## Split lemmas -/

theorem getD_mem_of_lt (l : List ℕ) (i : ℕ) (hi : i < l.length) :
    l.getD i 0 ∈ l := by
  rw [List.getD_eq_getElem _ _ hi]
  exact List.getElem_mem hi

theorem getD_inj_of_nodup (l : List ℕ) (hl : l.Nodup) (i j : ℕ)
    (hi : i < l.length) (hj : j < l.length) (h : l.getD i 0 = l.getD j 0) :
    i = j := by
  rw [List.getD_eq_getElem _ _ hi, List.getD_eq_getElem _ _ hj] at h
  exact (hl.getElem_inj_iff).mp h

theorem nTestOf_le (n : ℕ) (r : ℚ) (hr : r ≤ 1) : nTestOf n r ≤ n := by
  unfold nTestOf
  rw [Nat.ceil_le]
  calc r * n ≤ 1 * n := mul_le_mul_of_nonneg_right hr (Nat.cast_nonneg n)
  _ = (n : ℚ) := one_mul _

theorem twoStageSplit_spec (n : ℕ) (r1 r2 : ℚ) (perm1 perm2 : List ℕ)
    (hr1 : r1 ≤ 1) (hr2 : r2 ≤ 1) (h1 : perm1.Perm (List.range n))
    (h2 : perm2.Perm (List.range (n - nTestOf n r1))) :
    (twoStageSplit n r1 r2 perm1 perm2).1.length =
        n - nTestOf n r1 - nTestOf (n - nTestOf n r1) r2 ∧
      (twoStageSplit n r1 r2 perm1 perm2).2.1.length =
        nTestOf (n - nTestOf n r1) r2 ∧
      (twoStageSplit n r1 r2 perm1 perm2).2.2.length = nTestOf n r1 ∧
      (twoStageSplit n r1 r2 perm1 perm2).1.length +
          (twoStageSplit n r1 r2 perm1 perm2).2.1.length +
          (twoStageSplit n r1 r2 perm1 perm2).2.2.length = n ∧
      (twoStageSplit n r1 r2 perm1 perm2).1.Disjoint
        (twoStageSplit n r1 r2 perm1 perm2).2.1 ∧
      (twoStageSplit n r1 r2 perm1 perm2).1.Disjoint
        (twoStageSplit n r1 r2 perm1 perm2).2.2 ∧
      (twoStageSplit n r1 r2 perm1 perm2).2.1.Disjoint
        (twoStageSplit n r1 r2 perm1 perm2).2.2 := by
  have hlen1 : perm1.length = n := by
    rw [h1.length_eq, List.length_range]
  have hk1 : nTestOf n r1 ≤ n := nTestOf_le n r1 hr1
  have hrest : (perm1.drop (nTestOf n r1)).length = n - nTestOf n r1 := by
    rw [List.length_drop, hlen1]
  have hlen2 : perm2.length = n - nTestOf n r1 := by
    rw [h2.length_eq, List.length_range]
  have hk2 : nTestOf (n - nTestOf n r1) r2 ≤ n - nTestOf n r1 :=
    nTestOf_le _ r2 hr2
  have nodup1 : perm1.Nodup := h1.nodup_iff.mpr (List.nodup_range n)
  have nodup2 : perm2.Nodup := h2.nodup_iff.mpr (List.nodup_range _)
  have nodupRest : (perm1.drop (nTestOf n r1)).Nodup :=
    (List.drop_sublist _ _).nodup nodup1
  have hds : (perm1.take (nTestOf n r1)).Disjoint
      (perm1.drop (nTestOf n r1)) := by
    intro a ha ha2
    exact List.disjoint_take_drop nodup1 (le_refl (nTestOf n r1)) ha ha2
  have hmem2 : ∀ i ∈ perm2, i < (perm1.drop (nTestOf n r1)).length := by
    intro i hi
    rw [hrest]
    exact List.mem_range.mp (h2.mem_iff.mp hi)
  simp only [twoStageSplit, hrest]
  refine ⟨?_, ?_, ?_, ?_, ?_, ?_, ?_⟩
  · rw [List.length_map, List.length_drop, hlen2]
  · rw [List.length_map, List.length_take, hlen2,
      min_eq_left hk2]
  · rw [List.length_take, hlen1, min_eq_left hk1]
  · rw [List.length_map, List.length_drop, List.length_map, List.length_take,
      List.length_take, hlen1, hlen2, min_eq_left hk1, min_eq_left hk2,
      Nat.sub_add_cancel hk2, Nat.sub_add_cancel hk1]
  · -- train vs validation
    intro a hat hav
    obtain ⟨i2, hi2, hia2⟩ := List.mem_map.mp hat
    obtain ⟨i1, hi1, hia1⟩ := List.mem_map.mp hav
    have hlt2 := hmem2 i2 (List.mem_of_mem_drop hi2)
    have hlt1 := hmem2 i1 (List.mem_of_mem_take hi1)
    have : i1 = i2 :=
      getD_inj_of_nodup _ nodupRest i1 i2 hlt1 hlt2 (hia1.trans hia2.symm)
    exact List.disjoint_take_drop nodup2
      (le_refl (nTestOf (n - nTestOf n r1) r2)) hi1 (this ▸ hi2)
  · -- train vs test
    intro a hat has
    obtain ⟨i2, hi2, hia2⟩ := List.mem_map.mp hat
    have hlt2 := hmem2 i2 (List.mem_of_mem_drop hi2)
    exact hds has (hia2 ▸ getD_mem_of_lt _ i2 hlt2)
  · -- validation vs test
    intro a hav has
    obtain ⟨i1, hi1, hia1⟩ := List.mem_map.mp hav
    have hlt1 := hmem2 i1 (List.mem_of_mem_take hi1)
    exact hds has (hia1 ▸ getD_mem_of_lt _ i1 hlt1)

/-! ## Batch-loss algebra -/

theorem zipWith_map_same {α : Type} (f g : α → ℚ) :
    ∀ l : List α,
      List.zipWith (fun p t => (p - t) ^ 2) (l.map f) (l.map g) =
        l.map (fun s => (f s - g s) ^ 2)
  | [] => rfl
  | a :: l => by
    simp only [List.map_cons, List.zipWith_cons_cons, zipWith_map_same f g l]

theorem batchLoss_eq (net : Net) (b : Batch) :
    batchLoss net b = sqErrSum net b / b.length := by
  unfold batchLoss mseLoss sqErrSum
  rw [zipWith_map_same (fun s => predictOne net s.1) (fun s => s.2) b,
    List.length_map]

theorem sum_map_flatten {α : Type} (g : α → ℚ) :
    ∀ L : List (List α),
      (L.flatten.map g).sum = (L.map (fun b => (b.map g).sum)).sum
  | [] => rfl
  | b :: L => by
    simp only [List.flatten_cons, List.map_append, List.sum_append,
      List.map_cons, List.sum_cons, sum_map_flatten g L]

theorem length_flatten_const {α : Type} (k : ℕ) :
    ∀ L : List (List α), (∀ b ∈ L, b.length = k) →
      L.flatten.length = L.length * k
  | [], _ => by simp
  | b :: L, h => by
    have ih := length_flatten_const k L (fun x hx => h x (List.mem_cons_of_mem b hx))
    simp only [List.flatten_cons, List.length_append, List.length_cons, ih,
      h b (List.mem_cons_self b L)]
    ring

theorem validate_loss_const_batches (net : Net) (loader : List Batch) (k : ℕ)
    (hk : ∀ b ∈ loader, b.length = k) :
    (validate net loader).1 = datasetLoss net loader := by
  rw [validate_eq]
  show (loader.map (batchLoss net)).sum / (loader.length : ℚ) =
    datasetLoss net loader
  have hmap : loader.map (batchLoss net) =
      loader.map (fun b => sqErrSum net b / k) := by
    apply List.map_congr_left
    intro b hb
    rw [batchLoss_eq, hk b hb]
  have hflat : datasetLoss net loader =
      (loader.map (sqErrSum net)).sum / ((loader.length * k : ℕ) : ℚ) := by
    unfold datasetLoss
    rw [batchLoss_eq]
    unfold sqErrSum
    rw [sum_map_flatten (fun s => (predictOne net s.1 - s.2) ^ 2) loader,
      length_flatten_const k loader hk]
  rw [hmap, sum_map_div (sqErrSum net) (k : ℚ) loader, hflat, div_div]
  push_cast
  rw [mul_comm]

/-! ## Claims -/

/-- C1: the per-feature statistics of the standardizer are computed from the
training partition only — replacing the validation or test partitions leaves
the fitted statistics unchanged — and every partition (train, validation,
test) is transformed with those same training statistics by the entrywise
rule `scaled = (x - mean) / std`. -/
theorem c1_scaler_fit_train_only (train val val2 test test2 : List (List ℚ))
    (d : ℕ) (sc : StandardScaler) :
    fittedStats train val test d = fittedStats train val2 test2 d ∧
    scaledPartitions sc train val test =
      (train.map (transformRow sc), val.map (transformRow sc),
        test.map (transformRow sc)) ∧
    (fitsOn sc train d → ∀ (row : List ℚ) (j : ℕ), j < d → j < row.length →
      (transformRow sc row).getD j 0 =
        (row.getD j 0 - sc.mean_.getD j 0) / sc.scale_.getD j 0) := by
  refine ⟨rfl, rfl, ?_⟩
  intro hfit row j hj hr
  have hm : sc.mean_.length = d := by
    rw [hfit.1]
    simp [fitMean]
  have hs : sc.scale_.length = d := hfit.2.1
  unfold transformRow
  rw [getD_zipWith (· / ·) _ _ j 0 0 0
      (by rw [List.length_zipWith, hm]; omega) (by omega),
    getD_zipWith (fun x m => x - m) _ _ j 0 0 0 (by omega) (by omega)]

/-- Witness for C1 at a concrete dataset: the fitted statistics do not depend
on the validation/test partitions, and a concrete row transforms by the
`(x - mean) / std` rule. -/
theorem c1_witness :
    fittedStats [[0], [2]] [[3]] [[4]] 1 = fittedStats [[0], [2]] [[9]] [[7]] 1 ∧
    (transformRow ⟨[1], [1]⟩ [5]).getD 0 0 = ((5 : ℚ) - 1) / 1 :=
  ⟨(c1_scaler_fit_train_only [[0], [2]] [[3]] [[9]] [[4]] [[7]] 1
      ⟨[1], [1]⟩).1,
   (c1_scaler_fit_train_only [[0], [2]] [[3]] [[9]] [[4]] [[7]] 1
      ⟨[1], [1]⟩).2.2
    (by norm_num [fitsOn, fitMean, colVar, colMean, column, List.range_succ,
      List.getD])
    [5] 0 (by decide) (by decide)⟩

/-- C2: the forward pass is exactly the composition Linear(input→64), ReLU,
Dropout(0.2), Linear(64→32), ReLU, Dropout(0.2), Linear(32→16), ReLU,
Linear(16→1), with no activation after the final linear layer; in evaluation
mode each dropout is the identity (all units retained), and in training mode
dropout zeroes exactly the units dropped by its mask. -/
theorem c2_forward_composition (net : Net) (m1 m2 : List Bool) (x : List ℚ) :
    forward net true m1 m2 x =
      linear net.fc4w net.fc4b (relu (linear net.fc3w net.fc3b
        (dropout dropoutP true m2 (relu (linear net.fc2w net.fc2b
          (dropout dropoutP true m1
            (relu (linear net.fc1w net.fc1b x)))))))) ∧
    forward net false m1 m2 x =
      linear net.fc4w net.fc4b (relu (linear net.fc3w net.fc3b
        (relu (linear net.fc2w net.fc2b
          (relu (linear net.fc1w net.fc1b x)))))) ∧
    (∀ (m : List Bool) (y : List ℚ), dropout dropoutP false m y = y) ∧
    (∀ (m : List Bool) (y : List ℚ) (i : ℕ), i < m.length → i < y.length →
      m.getD i false = false → (dropout dropoutP true m y).getD i 0 = 0) := by
  refine ⟨rfl, rfl, fun m y => rfl, ?_⟩
  intro m y i him hiy hm
  show (List.zipWith (fun keep v => if keep then v / (1 - dropoutP) else 0)
    m y).getD i 0 = 0
  rw [getD_zipWith (fun keep v => if keep then v / (1 - dropoutP) else 0)
    m y i false 0 0 him hiy, hm]
  simp

/-- Witness for C2: at a concrete mask and activation vector, evaluation-mode
dropout is the identity and training-mode dropout zeroes the masked unit. -/
theorem c2_witness :
    dropout dropoutP false [true] [(7 : ℚ)] = [(7 : ℚ)] ∧
    (dropout dropoutP true [false] [(5 : ℚ)]).getD 0 0 = 0 :=
  ⟨(c2_forward_composition (zeroNet 1) [] [] []).2.2.1 [true] [7],
   (c2_forward_composition (zeroNet 1) [] [] []).2.2.2 [false] [5] 0
     (by decide) (by decide) (by decide)⟩

/-- C5: after the scaler fitted on the training partition is applied to that
partition, each feature column with nonzero training variance has mean
exactly 0 and variance exactly 1 (hence standard deviation exactly 1) in
exact arithmetic. -/
theorem c5_standardized_train_stats (train : List (List ℚ)) (d : ℕ)
    (sc : StandardScaler) (j : ℕ) (hfit : fitsOn sc train d)
    (hrows : ∀ r ∈ train, r.length = d) (hj : j < d)
    (hv : colVar (column train j) ≠ 0) :
    colMean (column (transform sc train) j) = 0 ∧
    colVar (column (transform sc train) j) = 1 := by
  have hm : sc.mean_.length = d := by
    rw [hfit.1]
    simp [fitMean]
  have hs : sc.scale_.length = d := hfit.2.1
  have hmj : sc.mean_.getD j 0 = colMean (column train j) := by
    rw [hfit.1]
    unfold fitMean
    exact getD_map_range _ d j hj
  obtain ⟨hsq, hspos⟩ := (hfit.2.2 j hj).2 hv
  rw [column_transform sc train d j hj hrows hm hs, hmj]
  exact ⟨standardized_mean _ _, standardized_var _ _ hsq (ne_of_gt hspos)⟩

/-- Witness for C5: the feature column [0, 2] has mean 1 and variance 1, and
after standardisation its mean is 0 and variance 1. -/
theorem c5_witness :
    colMean (column (transform ⟨[1], [1]⟩ [[0], [2]]) 0) = 0 ∧
    colVar (column (transform ⟨[1], [1]⟩ [[0], [2]]) 0) = 1 :=
  c5_standardized_train_stats [[0], [2]] 1 ⟨[1], [1]⟩ 0
    (by norm_num [fitsOn, fitMean, colVar, colMean, column, List.range_succ,
      List.getD])
    (by decide) (by decide)
    (by norm_num [colVar, colMean, column])

/-- C3: the train, validation and test partitions produced by the two chained
splits are pairwise disjoint (at the level of row indices, so no row
occurrence appears in two partitions) and their sizes sum to the row count of
the original table. -/
theorem c3_partitions_disjoint (n : ℕ) (r1 r2 : ℚ) (perm1 perm2 : List ℕ)
    (hr1 : r1 ≤ 1) (hr2 : r2 ≤ 1) (h1 : perm1.Perm (List.range n))
    (h2 : perm2.Perm (List.range (n - nTestOf n r1))) :
    (twoStageSplit n r1 r2 perm1 perm2).1.length +
        (twoStageSplit n r1 r2 perm1 perm2).2.1.length +
        (twoStageSplit n r1 r2 perm1 perm2).2.2.length = n ∧
      (twoStageSplit n r1 r2 perm1 perm2).1.Disjoint
        (twoStageSplit n r1 r2 perm1 perm2).2.1 ∧
      (twoStageSplit n r1 r2 perm1 perm2).1.Disjoint
        (twoStageSplit n r1 r2 perm1 perm2).2.2 ∧
      (twoStageSplit n r1 r2 perm1 perm2).2.1.Disjoint
        (twoStageSplit n r1 r2 perm1 perm2).2.2 := by
  obtain ⟨-, -, -, h4, h5, h6, h7⟩ :=
    twoStageSplit_spec n r1 r2 perm1 perm2 hr1 hr2 h1 h2
  exact ⟨h4, h5, h6, h7⟩

/-- Witness for C3 at a concrete 5-row table with the identity shuffles. -/
theorem c3_witness :
    (twoStageSplit 5 (1/5) (1/5) (List.range 5)
          (List.range (5 - nTestOf 5 (1/5)))).1.length +
        (twoStageSplit 5 (1/5) (1/5) (List.range 5)
          (List.range (5 - nTestOf 5 (1/5)))).2.1.length +
        (twoStageSplit 5 (1/5) (1/5) (List.range 5)
          (List.range (5 - nTestOf 5 (1/5)))).2.2.length = 5 ∧
      (twoStageSplit 5 (1/5) (1/5) (List.range 5)
          (List.range (5 - nTestOf 5 (1/5)))).1.Disjoint
        (twoStageSplit 5 (1/5) (1/5) (List.range 5)
          (List.range (5 - nTestOf 5 (1/5)))).2.1 ∧
      (twoStageSplit 5 (1/5) (1/5) (List.range 5)
          (List.range (5 - nTestOf 5 (1/5)))).1.Disjoint
        (twoStageSplit 5 (1/5) (1/5) (List.range 5)
          (List.range (5 - nTestOf 5 (1/5)))).2.2 ∧
      (twoStageSplit 5 (1/5) (1/5) (List.range 5)
          (List.range (5 - nTestOf 5 (1/5)))).2.1.Disjoint
        (twoStageSplit 5 (1/5) (1/5) (List.range 5)
          (List.range (5 - nTestOf 5 (1/5)))).2.2 :=
  c3_partitions_disjoint 5 (1/5) (1/5) (List.range 5)
    (List.range (5 - nTestOf 5 (1/5))) (by norm_num) (by norm_num)
    (List.Perm.refl _) (List.Perm.refl _)

theorem nTest_1599 : nTestOf 1599 (1/5) = 320 := by
  unfold nTestOf
  rw [Nat.ceil_eq_iff (by norm_num)]
  norm_num

theorem nTest_1279 : nTestOf 1279 (1/5) = 256 := by
  unfold nTestOf
  rw [Nat.ceil_eq_iff (by norm_num)]
  norm_num

/-- C6: splitting a 1599-row table with test fraction 0.2 and then splitting
the remaining train part again with fraction 0.2 yields exactly 1023 training
rows, 256 validation rows and 320 test rows (the held-out part takes the
ceiling of fraction times row count). -/
theorem c6_split_counts (perm1 perm2 : List ℕ)
    (h1 : perm1.Perm (List.range 1599))
    (h2 : perm2.Perm (List.range (1599 - nTestOf 1599 (1/5)))) :
    (twoStageSplit 1599 (1/5) (1/5) perm1 perm2).1.length = 1023 ∧
      (twoStageSplit 1599 (1/5) (1/5) perm1 perm2).2.1.length = 256 ∧
      (twoStageSplit 1599 (1/5) (1/5) perm1 perm2).2.2.length = 320 := by
  obtain ⟨hA, hB, hC, -, -, -, -⟩ :=
    twoStageSplit_spec 1599 (1/5) (1/5) perm1 perm2 (by norm_num) (by norm_num)
      h1 h2
  rw [nTest_1599] at hA hB hC
  have h1279 : (1599 : ℕ) - 320 = 1279 := by norm_num
  rw [h1279] at hA hB
  rw [nTest_1279] at hA hB
  exact ⟨by rw [hA], hB, hC⟩

/-- Witness for C6 with the identity shuffles. -/
theorem c6_witness :
    (twoStageSplit 1599 (1/5) (1/5) (List.range 1599)
        (List.range (1599 - nTestOf 1599 (1/5)))).1.length = 1023 ∧
      (twoStageSplit 1599 (1/5) (1/5) (List.range 1599)
        (List.range (1599 - nTestOf 1599 (1/5)))).2.1.length = 256 ∧
      (twoStageSplit 1599 (1/5) (1/5) (List.range 1599)
        (List.range (1599 - nTestOf 1599 (1/5)))).2.2.length = 320 :=
  c6_split_counts (List.range 1599) (List.range (1599 - nTestOf 1599 (1/5)))
    (List.Perm.refl _) (List.Perm.refl _)

/-- C7: the validate phase returns the average of the per-batch losses and
leaves the model — every weight and bias tensor of the four linear layers —
exactly unchanged; composing a train phase with a validate phase changes the
parameters exactly as the train phase alone does, for any optimizer update. -/
theorem c7_validate_no_mutation (net : Net) (loader : List Batch) :
    validate net loader =
      ((loader.map (batchLoss net)).sum / loader.length, net) ∧
    (validate net loader).2.fc1w = net.fc1w ∧
    (validate net loader).2.fc1b = net.fc1b ∧
    (validate net loader).2.fc2w = net.fc2w ∧
    (validate net loader).2.fc2b = net.fc2b ∧
    (validate net loader).2.fc3w = net.fc3w ∧
    (validate net loader).2.fc3b = net.fc3b ∧
    (validate net loader).2.fc4w = net.fc4w ∧
    (validate net loader).2.fc4b = net.fc4b ∧
    (∀ (step : Net → Batch → Net) (lossOf : Net → Batch → ℚ)
      (tl : List Batch),
      (epochStep step lossOf net tl loader).2 =
        (trainEpoch step lossOf net tl).2) := by
  have h := validate_eq net loader
  have h2 : (validate net loader).2 = net := by rw [h]
  refine ⟨h, by rw [h2], by rw [h2], by rw [h2], by rw [h2], by rw [h2],
    by rw [h2], by rw [h2], by rw [h2], ?_⟩
  intro step lossOf tl
  show (validate (trainEpoch step lossOf net tl).2 loader).2 =
    (trainEpoch step lossOf net tl).2
  rw [validate_eq]

/-- C8: for a well-formed model of input dimension `d` and any batch of at
least one row of `d` features, the forward pass returns one output row per
input row and every output row has exactly one component — output shape
`(batch_size, 1)`. -/
theorem c8_output_shape (net : Net) (d : ℕ) (X : List (List ℚ))
    (h : wf net d) (hrows : ∀ r ∈ X, r.length = d) (hX : 1 ≤ X.length) :
    (forwardBatch net X).length = X.length ∧
    1 ≤ (forwardBatch net X).length ∧
    (∀ out ∈ forwardBatch net X, out.length = 1) ∧
    (∀ (tr : Bool) (m1 m2 : List Bool) (x : List ℚ),
      (forward net tr m1 m2 x).length = 1) := by
  have hlen : ∀ (tr : Bool) (m1 m2 : List Bool) (x : List ℚ),
      (forward net tr m1 m2 x).length = 1 := by
    intro tr m1 m2 x
    show (linear net.fc4w net.fc4b _).length = 1
    unfold linear
    rw [List.length_zipWith, h.2.2.2.2.2.2.2.2.2.1,
      h.2.2.2.2.2.2.2.2.2.2.2]
    simp
  have hb : (forwardBatch net X).length = X.length := List.length_map X _
  refine ⟨hb, by rw [hb]; exact hX, ?_, hlen⟩
  intro out hout
  obtain ⟨x, hx, hfx⟩ := List.mem_map.mp hout
  rw [← hfx]
  exact hlen false [] [] x

/-- Witness for C8 at the zero network of input dimension 3 on a one-row
batch. -/
theorem c8_witness :
    (forwardBatch (zeroNet 3) [[0, 0, 0]]).length = 1 ∧
    1 ≤ (forwardBatch (zeroNet 3) [[0, 0, 0]]).length ∧
    (∀ out ∈ forwardBatch (zeroNet 3) [[0, 0, 0]], out.length = 1) ∧
    (∀ (tr : Bool) (m1 m2 : List Bool) (x : List ℚ),
      (forward (zeroNet 3) tr m1 m2 x).length = 1) :=
  c8_output_shape (zeroNet 3) 3 [[0, 0, 0]] (by decide) (by decide)
    (by decide)

theorem sum_zipWith_self_sq_zero :
    ∀ y : List ℚ, (List.zipWith (fun t p => (t - p) ^ 2) y y).sum = 0
  | [] => rfl
  | a :: l => by
    simp only [List.zipWith_cons_cons, List.sum_cons,
      sum_zipWith_self_sq_zero l, sub_self, add_zero]
    simp

/-- C9 counterexample: at the zero-variance target vector `[5, 5]` with
predictions `[4, 4]`, `r2_score` returns the ordinary value `0` — it is
neither undefined nor flagged, contradicting the claim as stated. -/
theorem c9_r2_cex :
    colVar [(5 : ℚ), 5] = 0 ∧ r2_score [(5 : ℚ), 5] [4, 4] = some 0 := by
  constructor
  · norm_num [colVar, colMean]
  · unfold r2_score
    norm_num [colMean]

/-- C9 (amended): when the predictions exactly equal a nonempty target
vector of nonzero variance, the R² score is exactly 1; when the target
variance is zero (with at least two samples), `r2_score` silently returns
the ordinary value 0 or 1 — 1 when the residuals are all zero and 0
otherwise — rather than an undefined or flagged result. -/
theorem c9_r2_perfect_and_zero_variance :
    (∀ y p : List ℚ, y ≠ [] → colVar y ≠ 0 → p = y →
      r2_score y p = some 1) ∧
    (∀ y p : List ℚ, colVar y = 0 → 2 ≤ y.length →
      r2_score y p = some 0 ∨ r2_score y p = some 1) := by
  constructor
  · intro y p hne hv hp
    rw [hp]
    have hlen : ¬ y.length < 2 := by
      intro hlt
      exact hv (var_eq_zero_of_length_lt_two y hlt)
    have hnum : (List.zipWith (fun t p => (t - p) ^ 2) y y).sum = 0 :=
      sum_zipWith_self_sq_zero y
    unfold r2_score
    rw [if_neg hlen, if_neg (by rw [hnum]; simp), if_neg (by rw [hnum]; simp)]
  · intro y p hv hlen2
    have hn : (y.length : ℚ) ≠ 0 := by
      have : y.length ≠ 0 := by omega
      exact_mod_cast this
    have hden : (y.map (fun t => (t - colMean y) ^ 2)).sum = 0 := by
      unfold colVar at hv
      rcases div_eq_zero_iff.mp hv with h | h
      · exact h
      · exact absurd h hn
    unfold r2_score
    rw [if_neg (by omega : ¬ y.length < 2)]
    rw [if_neg (by rw [hden]; simp)]
    rcases eq_or_ne ((List.zipWith (fun t p => (t - p) ^ 2) y p).sum) 0
      with h0 | h0
    · right
      rw [if_neg (by rw [h0]; simp)]
    · left
      rw [if_pos h0]

/-- Witness for C9: perfect predictions on `[1, 2]` give R² = 1, and the
zero-variance vector `[5, 5]` gives an ordinary 0-or-1 value. -/
theorem c9_witness :
    r2_score [(1 : ℚ), 2] [1, 2] = some 1 ∧
    (r2_score [(5 : ℚ), 5] [4, 4] = some 0 ∨
      r2_score [(5 : ℚ), 5] [4, 4] = some 1) :=
  ⟨c9_r2_perfect_and_zero_variance.1 [1, 2] [1, 2] (by simp)
     (by norm_num [colVar, colMean]) rfl,
   c9_r2_perfect_and_zero_variance.2 [5, 5] [4, 4]
     (by norm_num [colVar, colMean]) (by decide)⟩

theorem batchLoss_zeroNet (b : Batch) :
    batchLoss (zeroNet 1) b = (b.map (fun s => (0 - s.2) ^ 2)).sum /
      b.length := by
  rw [batchLoss_eq]
  unfold sqErrSum
  simp [predictOne_zeroNet]

/-- C10 counterexample: in the loader `cexLoaderEq` the two batches have
different sizes (1 and 2), yet the recorded per-epoch loss equals the
per-sample MSE over the whole partition — so the recorded loss does not
equal the per-sample MSE ONLY when every batch has the same size, refuting
the claim as stated. -/
theorem c10_cex :
    cexLoaderEq.map List.length = [1, 2] ∧
    (validate (zeroNet 1) cexLoaderEq).1 =
      datasetLoss (zeroNet 1) cexLoaderEq := by
  refine ⟨rfl, ?_⟩
  rw [validate_eq]
  show (cexLoaderEq.map (batchLoss (zeroNet 1))).sum /
    (cexLoaderEq.length : ℚ) = datasetLoss (zeroNet 1) cexLoaderEq
  unfold datasetLoss cexLoaderEq
  rw [batchLoss_zeroNet]
  norm_num [batchLoss_zeroNet]

/-- C10 (amended): the per-epoch loss recorded by both phases is the sum of
the per-batch losses divided by the number of batches (an unweighted mean
over batches); it equals the MSE over all samples of the partition whenever
every batch has the same size, while with unequal batch sizes the two can
differ — the final smaller batch is weighted equally with full batches, as
the concrete loader `cexLoaderNe` shows — though they may also coincide on
special data. -/
theorem c10_epoch_loss_averaging (net : Net) (loader : List Batch)
    (step : Net → Batch → Net) (lossOf : Net → Batch → ℚ) :
    (validate net loader).1 =
      (loader.map (batchLoss net)).sum / loader.length ∧
    (trainEpoch step lossOf net loader).1 =
      (trainLosses step lossOf net loader).sum / loader.length ∧
    (∀ k : ℕ, (∀ b ∈ loader, b.length = k) →
      (validate net loader).1 = datasetLoss net loader) ∧
    (validate (zeroNet 1) cexLoaderNe).1 ≠
      datasetLoss (zeroNet 1) cexLoaderNe := by
  refine ⟨by rw [validate_eq], trainEpoch_loss step lossOf net loader,
    fun k hk => validate_loss_const_batches net loader k hk, ?_⟩
  rw [validate_eq]
  show (cexLoaderNe.map (batchLoss (zeroNet 1))).sum /
    (cexLoaderNe.length : ℚ) ≠ datasetLoss (zeroNet 1) cexLoaderNe
  unfold datasetLoss cexLoaderNe
  rw [batchLoss_zeroNet]
  norm_num [batchLoss_zeroNet]

/-- Witness for C10 at a concrete loader with two size-1 batches. -/
theorem c10_witness :
    (validate (zeroNet 1) [[([0], 1)], [([0], 3)]]).1 =
      datasetLoss (zeroNet 1) [[([0], 1)], [([0], 3)]] :=
  (c10_epoch_loss_averaging (zeroNet 1) [[([0], 1)], [([0], 3)]]
      (fun n _ => n) (fun _ _ => 0)).2.2.1 1 (by decide)

/-- C4: the save cell persists the model state dict, optimizer state,
scaler, input dimension and loss histories, and restoring the persisted
state dict preserves evaluation-mode predictions exactly; but the load cell
as written calls `torch.load` with the misspelled keyword `weighta_only`,
which `pickle.Unpickler` rejects with a `TypeError`, so the load cell fails
on every checkpoint and never reconstructs a model.  With the intended
keyword spelling the load succeeds and returns the saved checkpoint
unchanged. -/
theorem c4_load_cell_fails (net : Net) (opt : List ℚ) (sc : StandardScaler)
    (d : ℕ) (tl vl : List ℚ) (x : List ℚ) :
    loadModelCell (saveCheckpoint net opt sc d tl vl) =
      Except.error "TypeError: invalid keyword argument" ∧
    torchLoad ["weights_only"] (saveCheckpoint net opt sc d tl vl) =
      Except.ok (saveCheckpoint net opt sc d tl vl) ∧
    (saveCheckpoint net opt sc d tl vl).model_state_dict = net ∧
    (saveCheckpoint net opt sc d tl vl).input_dim = d ∧
    predictOne (saveCheckpoint net opt sc d tl vl).model_state_dict x =
      predictOne net x := by
  refine ⟨?_, ?_, rfl, rfl, rfl⟩
  · unfold loadModelCell torchLoad loadCellKwargs torchLoadKnownKwargs
    simp
  · unfold torchLoad torchLoadKnownKwargs
    simp

end WineQuality
